import Mathlib

/-!
Verification development for the market-data loading utilities of the
repository (`util.py`, `sma.py`).

Shallow embedding conventions:
* a pandas `DataFrame` of kline rows is a `List Row` (rows in index order;
  `reset_index` is implicit in the list representation);
* the on-disk source tree and the cache directory are passed explicitly to
  every function and returned where the code mutates them;
* Python strings are Lean `String`s; character-level operations (glob
  matching, substring tests, `str.split` / `str.replace`) are implemented
  on the underlying `List Char`;
* clock time is a `Nat` count of seconds (one day = 86400 s), matching the
  arithmetic of `datetime.now()` / `timedelta(days=n)` /
  `datetime.fromtimestamp`, all of which are monotone in the timestamp;
* fallible functions return `Except Err`, with `Err` distinguishing the
  three exception kinds raised by the code: `FileNotFoundError`,
  `ValueError` and `RuntimeError`.
-/

namespace KlineSpec

/-- One kline row.  Only the columns the claims mention are modelled by
name (`symbol`, `time`, `Close`); `aux` stands for all remaining
volume-like columns, so that two rows agreeing on the named columns are
still distinguishable. -/
structure Row where
  symbol : String
  time : Nat
  close : Rat
  aux : Nat
deriving DecidableEq

/-- The three kinds of exceptions the loaders raise:
`notFound` is `FileNotFoundError`, `invalidArgument` is `ValueError`,
`loadError` is `RuntimeError`. -/
inductive Err where
  | notFound (msg : String)
  | invalidArgument (msg : String)
  | loadError (msg : String)
deriving DecidableEq

instance {ε α : Type} [DecidableEq ε] [DecidableEq α] : DecidableEq (Except ε α) := fun x y =>
  match x, y with
  | .ok a, .ok b => if h : a = b then isTrue (by rw [h]) else isFalse (by simp [h])
  | .error a, .error b => if h : a = b then isTrue (by rw [h]) else isFalse (by simp [h])
  | .ok _, .error _ => isFalse (by simp)
  | .error _, .ok _ => isFalse (by simp)

/-- Python's contiguous-substring test `p in s`, on character lists. -/
def segB (p : List Char) : List Char → Bool
  | [] => p.isEmpty
  | c :: t => p.isPrefixOf (c :: t) || segB p t

/-- Python's string comparison `a < b`: strict lexicographic order on the
code-point sequences. -/
def listCharLt : List Char → List Char → Bool
  | _, [] => false
  | [], _ :: _ => true
  | x :: xs, y :: ys => decide (x < y) || (decide (x = y) && listCharLt xs ys)

/-- String comparison on the character lists of two strings. -/
def strLt (a b : String) : Bool := listCharLt a.data b.data

/-- One-star glob `pre*suf` against a bare filename: the name decomposes as
`pre ++ mid ++ suf` for some (possibly empty) `mid`. -/
def glob1 (pre suf name : List Char) : Bool :=
  pre.isPrefixOf name && suf.isSuffixOf name &&
    decide (pre.length + suf.length ≤ name.length)

/-- Two-star glob `pre*_*suf`: as `glob1`, and the middle part contains an
underscore on which the two stars can split. -/
def glob2 (pre suf name : List Char) : Bool :=
  glob1 pre suf name &&
    ((name.drop pre.length).take (name.length - pre.length - suf.length)).contains '_'

/-- Row order used by `df.sort_values(['symbol', 'time'])`: lexicographic
on the pair (symbol, time). -/
def rowLEb (a b : Row) : Bool :=
  strLt a.symbol b.symbol || (decide (a.symbol = b.symbol) && decide (a.time ≤ b.time))

/-- The row order as a relation, for sortedness statements. -/
def rowLE (a b : Row) : Prop := rowLEb a b = true

instance : DecidableRel rowLE :=
  fun a b => inferInstanceAs (Decidable (rowLEb a b = true))

theorem strData_inj {a b : String} (h : a.data = b.data) : a = b := by
  cases a
  cases b
  exact congrArg String.mk h

theorem listCharLt_trans : ∀ {a b c : List Char},
    listCharLt a b = true → listCharLt b c = true → listCharLt a c = true := by
  intro a b c h1 h2
  induction a generalizing b c with
  | nil =>
    cases b with
    | nil => simp [listCharLt] at h1
    | cons y ys =>
      cases c with
      | nil => simp [listCharLt] at h2
      | cons z zs => simp [listCharLt]
  | cons x xs ih =>
    cases b with
    | nil => simp [listCharLt] at h1
    | cons y ys =>
      cases c with
      | nil => simp [listCharLt] at h2
      | cons z zs =>
        simp only [listCharLt, Bool.or_eq_true, Bool.and_eq_true, decide_eq_true_eq]
          at h1 h2 ⊢
        rcases h1 with h1 | ⟨rfl, h1⟩
        · rcases h2 with h2 | ⟨rfl, _⟩
          · exact Or.inl (lt_trans h1 h2)
          · exact Or.inl h1
        · rcases h2 with h2 | ⟨rfl, h2⟩
          · exact Or.inl h2
          · exact Or.inr ⟨rfl, ih h1 h2⟩

theorem listCharLt_tri : ∀ a b : List Char,
    listCharLt a b = true ∨ a = b ∨ listCharLt b a = true := by
  intro a
  induction a with
  | nil =>
    intro b
    cases b with
    | nil => exact Or.inr (Or.inl rfl)
    | cons y ys => exact Or.inl (by simp [listCharLt])
  | cons x xs ih =>
    intro b
    cases b with
    | nil => exact Or.inr (Or.inr (by simp [listCharLt]))
    | cons y ys =>
      simp only [listCharLt, Bool.or_eq_true, Bool.and_eq_true, decide_eq_true_eq,
        List.cons.injEq]
      rcases lt_trichotomy x y with h | rfl | h
      · exact Or.inl (Or.inl h)
      · rcases ih ys with h | rfl | h
        · exact Or.inl (Or.inr ⟨rfl, h⟩)
        · exact Or.inr (Or.inl ⟨rfl, rfl⟩)
        · exact Or.inr (Or.inr (Or.inr ⟨rfl, h⟩))
      · exact Or.inr (Or.inr (Or.inl h))

theorem listCharLt_irrefl : ∀ a : List Char, listCharLt a a = false := by
  intro a
  induction a with
  | nil => rfl
  | cons x xs ih =>
    simp only [listCharLt, Bool.or_eq_false_iff, Bool.and_eq_false_iff,
      decide_eq_false_iff_not]
    exact ⟨lt_irrefl x, Or.inr ih⟩

theorem listCharLt_asymm {a b : List Char}
    (h1 : listCharLt a b = true) (h2 : listCharLt b a = true) : False := by
  have := listCharLt_trans h1 h2
  rw [listCharLt_irrefl] at this
  cases this

instance : IsTrans Row rowLE := by
  constructor
  intro a b c hab hbc
  simp only [rowLE, rowLEb, strLt, Bool.or_eq_true, Bool.and_eq_true,
    decide_eq_true_eq] at hab hbc ⊢
  rcases hab with hab | ⟨e1, t1⟩
  · rcases hbc with hbc | ⟨e2, _⟩
    · exact Or.inl (listCharLt_trans hab hbc)
    · exact Or.inl (e2 ▸ hab)
  · rcases hbc with hbc | ⟨e2, t2⟩
    · exact Or.inl (e1 ▸ hbc)
    · exact Or.inr ⟨e1.trans e2, le_trans t1 t2⟩

instance : IsTotal Row rowLE := by
  constructor
  intro a b
  simp only [rowLE, rowLEb, strLt, Bool.or_eq_true, Bool.and_eq_true, decide_eq_true_eq]
  rcases listCharLt_tri a.symbol.data b.symbol.data with h | h | h
  · exact Or.inl (Or.inl h)
  · have e : a.symbol = b.symbol := strData_inj h
    rcases Nat.le_total a.time b.time with t | t
    · exact Or.inl (Or.inr ⟨e, t⟩)
    · exact Or.inr (Or.inr ⟨e.symm, t⟩)
  · exact Or.inr (Or.inl h)

/-- `df.sort_values(['symbol', 'time']).reset_index(drop=True)`.  The list
model has no index column, so only the row order matters; a deterministic
comparison sort stands in for pandas' sort. -/
def sortRows : List Row → List Row :=
  List.insertionSort rowLE

/-- Ordering of a file list by filename, as Python `list.sort()` on the
glob results (ascending, `a ≤ b` iff not `b < a`). -/
def fstLE {β : Type} (a b : String × β) : Prop := strLt b.1 a.1 = false

instance {β : Type} : DecidableRel (@fstLE β) :=
  fun a b => inferInstanceAs (Decidable (strLt b.1 a.1 = false))

/-- A file in the kline cache directory.  Every file `load_kline` writes is
named `{key}.{ts}.parquet` with `key = {symbol}_{timeframe}-{years}` and
`ts` the integer write timestamp, so cache files are modelled structurally
by that key, the timestamp, and the table stored in them.  (For such
well-formed names the janitor's `int(...)` parse of the timestamp token
always succeeds, and reverse-lexicographic order on the filenames of one
key agrees with numeric order on the equal-width timestamp tokens.) -/
structure CacheFile where
  key : String
  ts : Nat
  content : List Row
deriving DecidableEq

/-- The `aggTrades_kline` source tree: whether the root directory exists,
and the per-symbol directories, each holding `(filename, table)` pairs. -/
structure KlineFS where
  rootExists : Bool
  symDirs : List (String × List (String × List Row))
deriving DecidableEq

/-- The enumerated timeframes accepted by `load_kline`. -/
def validTimeframes : List String :=
  ["1m", "3m", "5m", "15m", "30m", "1h", "4h", "8h", "12h", "1d"]

/-- `years_for_cache`: the year component of a cache key,
`'_'.join(map(str, years))`, or the sentinel `"all"`. -/
def yearsKey : Option (List Nat) → String
  | none => "all"
  | some ys => String.intercalate "_" (ys.map toString)

/-- The cache key `{symbol}_{timeframe}-{years}` embedded in a cache
filename. -/
def cacheKey (s tf : String) (years : Option (List Nat)) : String :=
  s ++ "_" ++ tf ++ "-" ++ yearsKey years

/-- `remove_old_cache`: delete every cache file whose embedded timestamp is
older than `now - olderThanDays` days (files are kept when their timestamp
is at or after the threshold). -/
def sweep (cache : List CacheFile) (now olderThanDays : Nat) : List CacheFile :=
  cache.filter (fun e => decide (now - olderThanDays * 86400 ≤ e.ts))

/-- `cached_files.sort(reverse=True); cached_files[0]`: of the cache files
for one key, the one whose name is reverse-lexicographically first, i.e.
the one with the greatest embedded timestamp. -/
def pickLatest (l : List CacheFile) : Option CacheFile :=
  l.foldl (fun acc e =>
    match acc with
    | none => some e
    | some b => if b.ts < e.ts then some e else acc) none

/-- The cache files whose name encodes the key `k`. -/
def matchesKey (cache : List CacheFile) (k : String) : List CacheFile :=
  cache.filter (fun e => e.key == k)

/-- The cache-lookup loop of `load_kline`: read each requested symbol's
newest cache entry, giving up (`none`) as soon as one symbol has no entry
(the source breaks out of the loop at the first miss, so the tables read
before the miss are discarded). -/
def lookupAll (cache : List CacheFile) (tf : String) (years : Option (List Nat)) :
    List String → Option (List (List Row))
  | [] => some []
  | s :: rest =>
    match pickLatest (matchesKey cache (cacheKey s tf years)) with
    | none => none
    | some e => (lookupAll cache tf years rest).map (fun l => e.content :: l)

/-- The glob `{symbol}_kline_{timeframe}_*.parquet` over a symbol
directory. -/
def klineGlob (s tf : String) (files : List (String × List Row)) :
    List (String × List Row) :=
  files.filter (fun f => glob1 (s ++ "_kline_" ++ tf ++ "_").data ".parquet".data f.1.data)

/-- The year filter on kline source filenames: keep a file when it contains
`_{year}.` or `_{year}-` for some requested year (Python substring test). -/
def yearTok (ys : List Nat) (name : String) : Bool :=
  ys.any (fun y =>
    segB ("_" ++ toString y ++ ".").data name.data ||
    segB ("_" ++ toString y ++ "-").data name.data)

/-- Apply the year filter when a years list was requested (`years is not
None`); otherwise keep all files. -/
def yearFilter (years : Option (List Nat)) (files : List (String × List Row)) :
    List (String × List Row) :=
  match years with
  | none => files
  | some ys => files.filter (fun f => yearTok ys f.1)

/-- Sort a symbol's matching source files by filename
(`matching_files.sort()`). -/
def sortByName (files : List (String × List Row)) : List (String × List Row) :=
  List.insertionSort fstLE files

/-- The per-symbol source read of `load_kline`'s rebuild path: find the
symbol directory, glob for `{symbol}_kline_{timeframe}_*.parquet`, filter
by requested years, and concatenate the matching files in filename order.
`none` reproduces the three warning-and-skip cases: directory missing, no
file matching the glob, no file left after the year filter. -/
def sourceLoad (k : KlineFS) (tf : String) (years : Option (List Nat)) (s : String) :
    Option (List Row) :=
  match k.symDirs.lookup s with
  | none => none
  | some files =>
    let m := klineGlob s tf files
    if m.isEmpty then none
    else
      let m2 := yearFilter years m
      if m2.isEmpty then none
      else some ((sortByName m2).map (fun f => f.2)).flatten

/-- The rebuild loop body: for each requested symbol that yields source
data, the pair of the symbol and its concatenated table, in request
order. -/
def rebuildLoad (k : KlineFS) (tf : String) (years : Option (List Nat))
    (symbols : List String) : List (String × List Row) :=
  symbols.filterMap (fun s => (sourceLoad k tf years s).map (fun c => (s, c)))

/-- The message of the error raised when no symbol produces data.  The
`raise FileNotFoundError("No data found for symbols ...")` sits inside the
`try:` block of the rebuild path, so the surrounding
`except Exception: raise RuntimeError("Error loading kline files: ...")`
catches it and re-raises it as a `RuntimeError` wrapping the message. -/
def noDataMsg : String := "Error loading kline files: No data found for symbols"

/-- `load_kline`: validate the timeframe and the symbols list, check the
source root, sweep the cache directory, then either serve every symbol
from cache or rebuild all symbols from source files (writing each rebuilt
per-symbol table back into the cache with timestamp `now`).  Returns the
result together with the final contents of the cache directory. -/
def load_kline (k : KlineFS) (cache : List CacheFile) (now : Nat) (tf : String)
    (years : Option (List Nat)) (symbols : Option (List String)) :
    Except Err (List Row) × List CacheFile :=
  if tf ∈ validTimeframes then
    match symbols with
    | none =>
      (.error (.invalidArgument "symbols parameter is required and cannot be empty"), cache)
    | some syms =>
      if syms.isEmpty then
        (.error (.invalidArgument "symbols parameter is required and cannot be empty"), cache)
      else if k.rootExists then
        let cache1 := sweep cache now 1
        match lookupAll cache1 tf years syms with
        | some dfs => (.ok (sortRows dfs.flatten), cache1)
        | none =>
          let loaded := rebuildLoad k tf years syms
          let cache2 := cache1 ++ loaded.map (fun p => ⟨cacheKey p.1 tf years, now, p.2⟩)
          if loaded.isEmpty then (.error (.loadError noDataMsg), cache2)
          else (.ok (sortRows (loaded.map (fun p => p.2)).flatten), cache2)
      else (.error (.notFound "Directory not found"), cache)
  else (.error (.invalidArgument "Invalid timeframe"), cache)

/-- The rebuild path of `load_kline` as a standalone function of the source
tree alone: cache contents appear nowhere in it. -/
def rebuildResult (k : KlineFS) (tf : String) (years : Option (List Nat))
    (syms : List String) : Except Err (List Row) :=
  let tabs := syms.filterMap (sourceLoad k tf years)
  if tabs.isEmpty then .error (.loadError noDataMsg)
  else .ok (sortRows tabs.flatten)

/-- Whether a loader result is a `FileNotFoundError`. -/
def isNotFoundRes : Except Err (List Row) → Bool
  | .error (.notFound _) => true
  | _ => false

/-- Whether a loader result is a `ValueError`. -/
def isInvalidArgRes : Except Err (List Row) → Bool
  | .error (.invalidArgument _) => true
  | _ => false

/-- A row of the table produced by `load_ticker_set_sma`: a kline row with
the three appended moving-average columns. -/
structure SmaRow where
  row : Row
  ma7 : Rat
  ma25 : Rat
  ma99 : Rat
deriving DecidableEq

/-- The mean of the newest `min w n` of `n` observations, given the
observations newest first: `rolling(window=w, min_periods=1).mean()` at the
latest position. -/
def winMean (w : Nat) (revCloses : List Rat) : Rat :=
  (revCloses.take w).sum / ((revCloses.take w).length : Rat)

/-- The per-symbol rolling means of
`df.groupby('symbol')['Close'].transform(lambda x: x.rolling(window=w, min_periods=1).mean())`:
walk the table once, carrying for each symbol the closes seen so far
(newest first), and give every row the trailing-window means of its own
symbol's closes. -/
def annotateGo : List Row → List (String × List Rat) → List SmaRow
  | [], _ => []
  | r :: rest, seen =>
    let cur := r.close :: ((seen.lookup r.symbol).getD [])
    ⟨r, winMean 7 cur, winMean 25 cur, winMean 99 cur⟩ ::
      annotateGo rest ((r.symbol, cur) :: seen)

/-- The moving-average annotator applied to a loaded table. -/
def annotateSMA (df : List Row) : List SmaRow := annotateGo df []

/-- The annotator restricted to a single symbol's subsequence, carrying the
closes already seen (newest first); used to characterise `annotateSMA` on
one symbol's rows. -/
def blockAnn : List Row → List Rat → List SmaRow
  | [], _ => []
  | r :: rest, prev =>
    ⟨r, winMean 7 (r.close :: prev), winMean 25 (r.close :: prev),
      winMean 99 (r.close :: prev)⟩ :: blockAnn rest (r.close :: prev)

/-- `load_ticker_set_sma`: `load_kline` followed by the moving-average
annotator (the cache side effects are those of the underlying load). -/
def load_ticker_set_sma (k : KlineFS) (cache : List CacheFile) (now : Nat) (tf : String)
    (years : Option (List Nat)) (symbols : Option (List String)) :
    Except Err (List SmaRow) × List CacheFile :=
  ((load_kline k cache now tf years symbols).1.map annotateSMA,
    (load_kline k cache now tf years symbols).2)

/-- The mean of `xs` over the index window `max(0, i-(w-1)) .. i`, the
window the specification ascribes to row `i` of a symbol's block. -/
def meanTail (w : Nat) (xs : List Rat) (i : Nat) : Rat :=
  ((xs.take (i + 1)).drop (i + 1 - w)).sum /
    (((xs.take (i + 1)).drop (i + 1 - w)).length : Rat)

/-- Parse a maximal run of decimal digits (the whole list must be digits,
and nonempty at top level): Python `int(...)` as used by `strptime` field
matching. -/
def digitsValCore : List Char → Nat → Option Nat
  | [], acc => some acc
  | c :: t, acc =>
    if c.isDigit then digitsValCore t (acc * 10 + (c.toNat - 48)) else none

/-- Value of an all-digit nonempty character list. -/
def digitsVal (cs : List Char) : Option Nat :=
  if cs.isEmpty then none else digitsValCore cs 0

/-- Gregorian leap year, as `datetime` validates dates. -/
def isLeap (y : Nat) : Bool :=
  y % 4 = 0 && (y % 100 ≠ 0 || y % 400 = 0)

/-- Days in a month, as `datetime` validates dates. -/
def daysInMonth (y m : Nat) : Nat :=
  if m = 2 then (if isLeap y then 29 else 28)
  else if m = 4 ∨ m = 6 ∨ m = 9 ∨ m = 11 then 30
  else 31

/-- A validated calendar date, encoded order-preservingly as
`y * 10000 + m * 100 + d` (the encoding is monotone in (y, m, d) because
the month and day fields are bounded by 12 and 31). -/
def mkDate (y m d : Nat) : Option Nat :=
  if 1 ≤ y ∧ y ≤ 9999 ∧ 1 ≤ m ∧ m ≤ 12 ∧ 1 ≤ d ∧ d ≤ daysInMonth y m then
    some (y * 10000 + m * 100 + d)
  else none

/-- `datetime.strptime(tok, '%Y%m%d')` on an 8-character token. -/
def parseYMD8 (cs : List Char) : Option Nat := do
  let y ← digitsVal (cs.take 4)
  let m ← digitsVal ((cs.drop 4).take 2)
  let d ← digitsVal ((cs.drop 6).take 2)
  mkDate y m d

/-- `datetime.strptime(tok, '%Y-%m-%d')` on a 10-character token (the only
way a 10-character string matches the pattern is four digit-groups split
by dashes at positions 4 and 7). -/
def parseYMDdash (cs : List Char) : Option Nat :=
  if cs.get? 4 = some '-' ∧ cs.get? 7 = some '-' then do
    let y ← digitsVal (cs.take 4)
    let m ← digitsVal ((cs.drop 5).take 2)
    let d ← digitsVal ((cs.drop 8).take 2)
    mkDate y m d
  else none

/-- The time-of-day part `HH:MM` or `HH:MM:SS` of an ISO datetime,
encoded as `h * 10000 + mi * 100 + s`. -/
def parseHMS (cs : List Char) : Option Nat :=
  if cs.length = 5 then
    if cs.get? 2 = some ':' then do
      let h ← digitsVal (cs.take 2)
      let mi ← digitsVal ((cs.drop 3).take 2)
      if h ≤ 23 ∧ mi ≤ 59 then some (h * 10000 + mi * 100) else none
    else none
  else if cs.length = 8 then
    if cs.get? 2 = some ':' ∧ cs.get? 5 = some ':' then do
      let h ← digitsVal (cs.take 2)
      let mi ← digitsVal ((cs.drop 3).take 2)
      let s ← digitsVal ((cs.drop 6).take 2)
      if h ≤ 23 ∧ mi ≤ 59 ∧ s ≤ 59 then some (h * 10000 + mi * 100 + s) else none
    else none
  else none

/-- `datetime.fromisoformat` on the extended format
`YYYY-MM-DD[{T,space}HH:MM[:SS]]` (the shapes a filename end-date token can
take beyond the two fixed-width branches; fractional seconds, time zones
and the basic/week formats are outside the model).  Encoded as
`date * 10^6 + time`, which preserves chronological order against the two
date-only branches. -/
def parseISOTok (cs : List Char) : Option Nat :=
  match parseYMDdash (cs.take 10) with
  | none => none
  | some d =>
    match cs.drop 10 with
    | [] => some (d * 1000000)
    | sep :: t =>
      if sep = 'T' ∨ sep = ' ' then (parseHMS t).map (fun tm => d * 1000000 + tm)
      else none

/-- The date-token parse of `find_latest_file`: 8 characters are parsed as
`%Y%m%d`, 10 characters as `%Y-%m-%d`, anything else goes to
`fromisoformat` after replacing underscores by dashes. -/
def parseDateTok (cs : List Char) : Option Nat :=
  if cs.length = 8 then (parseYMD8 cs).map (fun d => d * 1000000)
  else if cs.length = 10 then (parseYMDdash cs).map (fun d => d * 1000000)
  else parseISOTok (cs.map (fun c => if c = '_' then '-' else c))

/-- Remove every (leftmost-first, non-overlapping) occurrence of `old`,
with explicit fuel: Python `s.replace(old, '')`.  The fuel is set to the
length of the scanned list, which suffices because every step consumes at
least one character. -/
def stripAllF (old : List Char) : Nat → List Char → List Char
  | 0, l => l
  | fuel + 1, l =>
    match l with
    | [] => []
    | c :: t =>
      if old.isPrefixOf (c :: t) then stripAllF old fuel ((c :: t).drop old.length)
      else c :: stripAllF old fuel t

/-- Python `s.replace(old, '')`. -/
def pyRemoveAll (old l : List Char) : List Char := stripAllF old l.length l

/-- Python `s.split(sep)` for a single-character separator. -/
def splitOnChar (sep : Char) : List Char → List (List Char)
  | [] => [[]]
  | c :: t =>
    match splitOnChar sep t with
    | [] => [[]]
    | h :: rest => if c = sep then [] :: h :: rest else (c :: h) :: rest

/-- The per-candidate parse of `find_latest_file`: strip `.parquet`, split
on underscores, and — when at least four parts remain — parse the last
part as the end date.  A filename with fewer than four parts is skipped
exactly as a parse failure is. -/
def parseEndToken (filename : String) : Option Nat :=
  let parts := splitOnChar '_' (pyRemoveAll ".parquet".data filename.data)
  if 4 ≤ parts.length then
    match parts.getLast? with
    | some tok => parseDateTok tok
    | none => none
  else none

/-- One step of the scan for the latest end date: a candidate that fails to
parse is skipped; a parsed candidate replaces the current best only when
its end date is strictly greater (ties keep the earlier candidate). -/
def latestStep (acc : Option (String × Nat)) (f : String) : Option (String × Nat) :=
  match parseEndToken f with
  | none => acc
  | some d =>
    match acc with
    | none => some (f, d)
    | some p => if p.2 < d then some (f, d) else acc

/-- `find_latest_file` on the list of glob matches: error when the glob
matched nothing, otherwise scan all candidates and return the one with the
maximum parsed end date, or error when no candidate parsed. -/
def find_latest_file (files : List String) : Except Err String :=
  if files.isEmpty then .error (.notFound "No files found matching pattern")
  else
    match files.foldl latestStep none with
    | some p => .ok p.1
    | none => .error (.notFound "Could not find valid data files")

/-- The directory `load_parquet` resolves for one symbol: whether it
exists, and its `(filename, column names)` pairs.  Row data is irrelevant
to the claims about `load_parquet`, so tables are reduced to their column
lists. -/
structure ParquetFS where
  dirExists : Bool
  files : List (String × List String)
deriving DecidableEq

/-- Python `str.lower()`. -/
def pyLower (s : String) : String := ⟨s.data.map Char.toLower⟩

/-- Python `str.capitalize()`: first character upper-cased, all remaining
characters lower-cased. -/
def pyCapitalize (s : String) : String :=
  match s.data with
  | [] => ""
  | c :: t => ⟨c.toUpper :: t.map Char.toLower⟩

/-- The lower-case names that trigger renaming in `load_parquet`. -/
def ohlcvLower : List String := ["open", "high", "low", "close", "volume"]

/-- The column-rename rule of `load_parquet`'s non-aggTrades path: a column
whose lower-cased name is an OHLCV name is capitalized, all others are kept
as-is (`df.rename(columns=rename_dict)`). -/
def renameCol (c : String) : String :=
  if pyLower c ∈ ohlcvLower then pyCapitalize c else c

/-- Rename a whole column list. -/
def renameOHLCV (cols : List String) : List String := cols.map renameCol

/-- Column alignment of `pd.concat` over the loaded frames: the union of
the column lists in order of first appearance (for frames with identical
columns this is that shared column list). -/
def unionCols (ls : List (List String)) : List String :=
  ls.foldl (fun acc cs => acc ++ cs.filter (fun c => !acc.contains c)) []

/-- `df = dfs[0] if len(dfs) == 1 else pd.concat(dfs)` at the level of
column lists. -/
def aggConcat (ls : List (List String)) : List String :=
  match ls with
  | [c] => c
  | _ => unionCols ls

/-- Python string interpolation of an optional value (`f"{detail}"` prints
`None` as the literal string `"None"`). -/
def pyOptStr : Option String → String
  | none => "None"
  | some s => s

/-- Sort the matched files by filename (`matching_files.sort()`). -/
def sortPFiles (files : List (String × List String)) : List (String × List String) :=
  List.insertionSort fstLE files

/-- The aggTrades glob `{symbol}_aggTrades_*.parquet` over the symbol
directory. -/
def aggGlobbed (fs : ParquetFS) (sym : String) : List (String × List String) :=
  fs.files.filter (fun f => glob1 (sym ++ "_aggTrades_").data ".parquet".data f.1.data)

/-- The aggTrades year filter: plain substring test of `str(year)` against
the filename. -/
def aggYearFiltered (years : Option (List Nat)) (m : List (String × List String)) :
    List (String × List String) :=
  match years with
  | none => m
  | some ys => m.filter (fun f => ys.any (fun y => segB (toString y).data f.1.data))

/-- The filename stem `load_parquet` globs for on its non-aggTrades path,
by data type: depth uses `{symbol}_{source}_{market}_`, trades and metrics
use `{symbol}_{data_type}_`, everything else uses `{symbol}_{detail}_`
(with Python rendering a missing `detail` as the string `None`). -/
def parquetPre (source market dataType : String) (detail : Option String)
    (sym : String) : String :=
  if dataType = "depth" then sym ++ "_" ++ source ++ "_" ++ market ++ "_"
  else if dataType = "trades" ∨ dataType = "metrics" then sym ++ "_" ++ dataType ++ "_"
  else sym ++ "_" ++ pyOptStr detail ++ "_"

/-- The two-star glob `pre*_*.parquet` over the symbol directory. -/
def pGlobbed (fs : ParquetFS) (pre : String) : List (String × List String) :=
  fs.files.filter (fun f => glob2 pre.data ".parquet".data f.1.data)

/-- `load_parquet` at the level of column lists: validate the symbol, check
the directory, then either concatenate all (year-filtered) aggTrades files,
or resolve the single latest file and rename its OHLCV columns. -/
def load_parquet (fs : ParquetFS) (source market dataType : String)
    (symbol : Option String) (detail : Option String) (years : Option (List Nat)) :
    Except Err (List String) :=
  match symbol with
  | none => .error (.invalidArgument "symbol parameter is required")
  | some sym =>
    if fs.dirExists then
      if dataType = "aggTrades" then
        let m := aggGlobbed fs sym
        if m.isEmpty then .error (.notFound "No files found matching pattern")
        else
          let m2 := aggYearFiltered years m
          if m2.isEmpty then .error (.notFound "No files found for years")
          else .ok (aggConcat ((sortPFiles m2).map (fun f => f.2)))
      else
        let m := pGlobbed fs (parquetPre source market dataType detail sym)
        match find_latest_file (m.map (fun f => f.1)) with
        | .error e => .error e
        | .ok name =>
          match List.lookup name m with
          | some t => .ok (renameOHLCV t)
          | none => .error (.loadError "Error loading parquet file")
    else .error (.notFound "Directory not found")

theorem foldl_latest_none :
    ∀ (files : List String) (acc : Option (String × Nat)),
      files.foldl latestStep acc = none →
      acc = none ∧ ∀ f ∈ files, parseEndToken f = none := by
  intro files
  induction files with
  | nil =>
    intro acc h
    exact ⟨h, by simp⟩
  | cons g t ih =>
    intro acc h
    rw [List.foldl_cons] at h
    obtain ⟨hstep, hrest⟩ := ih (latestStep acc g) h
    unfold latestStep at hstep
    cases hg : parseEndToken g with
    | none =>
      rw [hg] at hstep
      refine ⟨hstep, ?_⟩
      intro f hf
      rcases List.mem_cons.1 hf with rfl | hf
      · exact hg
      · exact hrest f hf
    | some d =>
      rw [hg] at hstep
      cases acc with
      | none => simp at hstep
      | some p =>
        by_cases hlt : p.2 < d
        · simp [hlt] at hstep
        · simp [hlt] at hstep

theorem foldl_latest_some :
    ∀ (files : List String) (acc : Option (String × Nat)) (p : String × Nat),
      files.foldl latestStep acc = some p →
      (acc = some p ∨ (p.1 ∈ files ∧ parseEndToken p.1 = some p.2)) ∧
      (∀ q, acc = some q → q.2 ≤ p.2) ∧
      (∀ f d, f ∈ files → parseEndToken f = some d → d ≤ p.2) := by
  intro files
  induction files with
  | nil =>
    intro acc p h
    rw [List.foldl_nil] at h
    subst h
    refine ⟨Or.inl rfl, ?_, by simp⟩
    intro q hq
    cases hq
    exact le_refl _
  | cons g t ih =>
    intro acc p h
    rw [List.foldl_cons] at h
    cases hg : parseEndToken g with
    | none =>
      have he : latestStep acc g = acc := by unfold latestStep; rw [hg]
      rw [he] at h
      obtain ⟨hmem, hacc, hall⟩ := ih acc p h
      refine ⟨?_, hacc, ?_⟩
      · rcases hmem with hm | ⟨hm1, hm2⟩
        · exact Or.inl hm
        · exact Or.inr ⟨List.mem_cons_of_mem g hm1, hm2⟩
      · intro f d hf hd
        rcases List.mem_cons.1 hf with rfl | hf
        · rw [hg] at hd; cases hd
        · exact hall f d hf hd
    | some dg =>
      cases acc with
      | none =>
        have he : latestStep none g = some (g, dg) := by
          unfold latestStep; rw [hg]
        rw [he] at h
        obtain ⟨hmem, hacc, hall⟩ := ih (some (g, dg)) p h
        have hdg : dg ≤ p.2 := hacc (g, dg) rfl
        refine ⟨?_, ?_, ?_⟩
        · rcases hmem with hm | ⟨hm1, hm2⟩
          · cases hm
            exact Or.inr ⟨List.mem_cons_self _ _, hg⟩
          · exact Or.inr ⟨List.mem_cons_of_mem g hm1, hm2⟩
        · intro q hq
          cases hq
        · intro f d hf hd
          rcases List.mem_cons.1 hf with rfl | hf
          · rw [hg] at hd
            cases hd
            exact hdg
          · exact hall f d hf hd
      | some q0 =>
        by_cases hlt : q0.2 < dg
        · have he : latestStep (some q0) g = some (g, dg) := by
            unfold latestStep; rw [hg]; simp [hlt]
          rw [he] at h
          obtain ⟨hmem, hacc, hall⟩ := ih (some (g, dg)) p h
          have hdg : dg ≤ p.2 := hacc (g, dg) rfl
          refine ⟨?_, ?_, ?_⟩
          · rcases hmem with hm | ⟨hm1, hm2⟩
            · cases hm
              exact Or.inr ⟨List.mem_cons_self _ _, hg⟩
            · exact Or.inr ⟨List.mem_cons_of_mem g hm1, hm2⟩
          · intro q hq
            cases hq
            exact le_trans (le_of_lt hlt) hdg
          · intro f d hf hd
            rcases List.mem_cons.1 hf with rfl | hf
            · rw [hg] at hd
              cases hd
              exact hdg
            · exact hall f d hf hd
        · have he : latestStep (some q0) g = some q0 := by
            unfold latestStep; rw [hg]; simp [hlt]
          rw [he] at h
          obtain ⟨hmem, hacc, hall⟩ := ih (some q0) p h
          have hq0 : q0.2 ≤ p.2 := hacc q0 rfl
          refine ⟨?_, ?_, ?_⟩
          · rcases hmem with hm | ⟨hm1, hm2⟩
            · exact Or.inl hm
            · exact Or.inr ⟨List.mem_cons_of_mem g hm1, hm2⟩
          · intro q hq
            cases hq
            exact hq0
          · intro f d hf hd
            rcases List.mem_cons.1 hf with rfl | hf
            · rw [hg] at hd
              cases hd
              exact le_trans (le_of_not_lt hlt) hq0
            · exact hall f d hf hd

/-- C4: on a non-empty candidate list, `find_latest_file` parses the
end-date token of every candidate and returns a candidate whose parsed end
date is maximal; it fails with a `FileNotFoundError` both when the glob
matched nothing and when no candidate parses.  Of two files differing only
by end tokens `20250101` and `20250115` it picks the `20250115` file. -/
theorem c4_latest_file_resolution (files : List String) (f : String) (d : Nat) :
    (find_latest_file [] = .error (.notFound "No files found matching pattern")) ∧
    ((∀ g ∈ files, parseEndToken g = none) → files ≠ [] →
      find_latest_file files = .error (.notFound "Could not find valid data files")) ∧
    (f ∈ files → parseEndToken f = some d →
      ∃ g dg, find_latest_file files = .ok g ∧ g ∈ files ∧ parseEndToken g = some dg ∧
        ∀ f' d', f' ∈ files → parseEndToken f' = some d' → d' ≤ dg) ∧
    (find_latest_file
        ["BTCUSDT_metrics_20240101_20250101.parquet",
          "BTCUSDT_metrics_20240101_20250115.parquet"] =
      .ok "BTCUSDT_metrics_20240101_20250115.parquet") := by
  refine ⟨by decide, ?_, ?_, by decide⟩
  · intro hnp hne
    unfold find_latest_file
    rw [if_neg (by simpa [List.isEmpty_iff] using hne)]
    cases hfold : files.foldl latestStep none with
    | none => rfl
    | some p =>
      obtain ⟨hmem, _, _⟩ := foldl_latest_some files none p hfold
      rcases hmem with hm | ⟨hm1, hm2⟩
      · cases hm
      · rw [hnp p.1 hm1] at hm2
        cases hm2
  · intro hf hd
    have hne : files ≠ [] := fun h0 => by rw [h0] at hf; cases hf
    unfold find_latest_file
    rw [if_neg (by simpa [List.isEmpty_iff] using hne)]
    cases hfold : files.foldl latestStep none with
    | none =>
      obtain ⟨_, hnp⟩ := foldl_latest_none files none hfold
      rw [hnp f hf] at hd
      cases hd
    | some p =>
      obtain ⟨hmem, _, hall⟩ := foldl_latest_some files none p hfold
      rcases hmem with hm | ⟨hm1, hm2⟩
      · cases hm
      · exact ⟨p.1, p.2, rfl, hm1, hm2, hall⟩

/-- Witness for C4: the maximality clause applied to the two-file
scenario. -/
theorem c4_witness :
    ("BTCUSDT_metrics_20240101_20250101.parquet" ∈
        ["BTCUSDT_metrics_20240101_20250101.parquet",
          "BTCUSDT_metrics_20240101_20250115.parquet"]) ∧
    parseEndToken "BTCUSDT_metrics_20240101_20250101.parquet" = some 20250101000000 ∧
    (∃ g dg,
      find_latest_file
          ["BTCUSDT_metrics_20240101_20250101.parquet",
            "BTCUSDT_metrics_20240101_20250115.parquet"] = .ok g ∧
      g ∈ ["BTCUSDT_metrics_20240101_20250101.parquet",
            "BTCUSDT_metrics_20240101_20250115.parquet"] ∧
      parseEndToken g = some dg ∧
      ∀ f' d',
        f' ∈ ["BTCUSDT_metrics_20240101_20250101.parquet",
              "BTCUSDT_metrics_20240101_20250115.parquet"] →
        parseEndToken f' = some d' → d' ≤ dg) :=
  ⟨by decide, by decide,
    (c4_latest_file_resolution
        ["BTCUSDT_metrics_20240101_20250101.parquet",
          "BTCUSDT_metrics_20240101_20250115.parquet"]
        "BTCUSDT_metrics_20240101_20250101.parquet" 20250101000000).2.2.1
      (by decide) (by decide)⟩

/-- C6: an unsupported timeframe, and a missing or empty symbols list, make
`load_kline` fail with a `ValueError` before any filesystem access (the
result is a fixed error and the cache directory is untouched, uniformly in
the filesystem argument `k`); `load_parquet` with `symbol=None` fails with
a `ValueError` likewise uniformly in its filesystem argument. -/
theorem c6_argument_validation (k : KlineFS) (cache : List CacheFile) (now : Nat)
    (tf : String) (years : Option (List Nat)) (symbols : Option (List String))
    (fs : ParquetFS) (source market dataType : String) (detail : Option String) :
    (tf ∉ validTimeframes →
      load_kline k cache now tf years symbols =
        (.error (.invalidArgument "Invalid timeframe"), cache)) ∧
    ((symbols = none ∨ symbols = some []) →
      isInvalidArgRes (load_kline k cache now tf years symbols).1 = true ∧
      (load_kline k cache now tf years symbols).2 = cache) ∧
    (load_parquet fs source market dataType none detail years =
      .error (.invalidArgument "symbol parameter is required")) := by
  refine ⟨?_, ?_, rfl⟩
  · intro h
    unfold load_kline
    rw [if_neg h]
  · intro h
    by_cases htf : tf ∈ validTimeframes
    · rcases h with rfl | rfl
      · unfold load_kline
        rw [if_pos htf]
        exact ⟨rfl, rfl⟩
      · unfold load_kline
        rw [if_pos htf]
        exact ⟨rfl, rfl⟩
    · unfold load_kline
      rw [if_neg htf]
      exact ⟨rfl, rfl⟩

/-- Witness for C6 at concrete inputs: timeframe `"2m"`, a missing symbols
list, and `symbol=None`. -/
theorem c6_witness :
    load_kline ⟨true, []⟩ [] 0 "2m" none (some ["A"]) =
      (.error (.invalidArgument "Invalid timeframe"), []) ∧
    isInvalidArgRes (load_kline ⟨true, []⟩ [] 0 "1m" none none).1 = true ∧
    (load_kline ⟨true, []⟩ [] 0 "1m" none none).2 = [] ∧
    load_parquet ⟨true, []⟩ "binance" "future" "kline" none (some "1h") none =
      .error (.invalidArgument "symbol parameter is required") :=
  ⟨(c6_argument_validation ⟨true, []⟩ [] 0 "2m" none (some ["A"])
      ⟨true, []⟩ "binance" "future" "kline" (some "1h")).1 (by decide),
    ((c6_argument_validation ⟨true, []⟩ [] 0 "1m" none none
        ⟨true, []⟩ "binance" "future" "kline" (some "1h")).2.1 (Or.inl rfl)).1,
    ((c6_argument_validation ⟨true, []⟩ [] 0 "1m" none none
        ⟨true, []⟩ "binance" "future" "kline" (some "1h")).2.1 (Or.inl rfl)).2,
    (c6_argument_validation ⟨true, []⟩ [] 0 "1m" none none
        ⟨true, []⟩ "binance" "future" "kline" (some "1h")).2.2⟩

/-- C8: a call of `load_kline` that reaches its cache directory (valid
timeframe, non-empty symbols, source root present) deletes — before the
cache lookup, which in the model operates on the swept directory — every
cache entry whose embedded write timestamp is older than the one-day
retention period, whatever key that entry encodes; the entry is absent
from the cache directory the call leaves behind. -/
theorem c8_janitor_removes_stale (k : KlineFS) (cache : List CacheFile) (now : Nat)
    (tf : String) (years : Option (List Nat)) (syms : List String) (e : CacheFile)
    (htf : tf ∈ validTimeframes) (hs : syms ≠ []) (hroot : k.rootExists = true)
    (hstale : e.ts < now - 86400) :
    e ∉ (load_kline k cache now tf years (some syms)).2 := by
  intro hmem
  have hsw : e ∉ sweep cache now 1 := by
    intro hm
    have := (List.mem_filter.1 hm).2
    rw [decide_eq_true_eq] at this
    omega
  unfold load_kline at hmem
  rw [if_pos htf] at hmem
  simp only [List.isEmpty_iff] at hmem
  rw [if_neg hs, if_pos hroot] at hmem
  rcases hca : lookupAll (sweep cache now 1) tf years syms with _ | dfs
  · rw [hca] at hmem
    simp only at hmem
    by_cases hemp : rebuildLoad k tf years syms = []
    · rw [if_pos hemp] at hmem
      rcases List.mem_append.1 hmem with hm | hm
      · exact hsw hm
      · rcases List.mem_map.1 hm with ⟨p, _, hpe⟩
        have : e.ts = now := by rw [← hpe]
        omega
    · rw [if_neg hemp] at hmem
      rcases List.mem_append.1 hmem with hm | hm
      · exact hsw hm
      · rcases List.mem_map.1 hm with ⟨p, _, hpe⟩
        have : e.ts = now := by rw [← hpe]
        omega
  · rw [hca] at hmem
    exact hsw hmem

/-- Witness for C8: a stale entry under a different key is gone after a
call that rebuilds a single symbol. -/
theorem c8_witness :
    ("1m" ∈ validTimeframes) ∧ (["A"] ≠ ([] : List String)) ∧
    (KlineFS.rootExists ⟨true, [("A", [("A_kline_1m_2024.parquet", [⟨"A", 3, 1, 0⟩])])]⟩ = true) ∧
    ((5 : Nat) < 100000 - 86400) ∧
    (⟨"ZZZ_1h-all", 5, []⟩ : CacheFile) ∉
      (load_kline ⟨true, [("A", [("A_kline_1m_2024.parquet", [⟨"A", 3, 1, 0⟩])])]⟩
        [⟨"ZZZ_1h-all", 5, []⟩] 100000 "1m" none (some ["A"])).2 :=
  ⟨by decide, by decide, rfl, by decide,
    c8_janitor_removes_stale
      ⟨true, [("A", [("A_kline_1m_2024.parquet", [⟨"A", 3, 1, 0⟩])])]⟩
      [⟨"ZZZ_1h-all", 5, []⟩] 100000 "1m" none ["A"] ⟨"ZZZ_1h-all", 5, []⟩
      (by decide) (by decide) rfl (by decide)⟩

theorem rebuild_snd (k : KlineFS) (tf : String) (years : Option (List Nat)) :
    ∀ ss : List String,
      (rebuildLoad k tf years ss).map (fun p => p.2) = ss.filterMap (sourceLoad k tf years) := by
  intro ss
  induction ss with
  | nil => rfl
  | cons s t ih =>
    unfold rebuildLoad
    unfold rebuildLoad at ih
    rw [List.filterMap_cons, List.filterMap_cons]
    cases h : sourceLoad k tf years s with
    | none => simp [h, ih]
    | some c => simp [h, ih]

theorem matchesKey_nil_of_none (c : List CacheFile) (key : String)
    (h : ∀ e ∈ c, e.key ≠ key) : matchesKey c key = [] := by
  unfold matchesKey
  induction c with
  | nil => rfl
  | cons e t ih =>
    rw [List.filter_cons]
    have : (e.key == key) = false := by
      rw [beq_eq_false_iff_ne]
      exact h e (List.mem_cons_self _ _)
    rw [this]
    simp only [Bool.false_eq_true, if_false]
    exact ih (fun e' he' => h e' (List.mem_cons_of_mem _ he'))

theorem lookupAll_none_of_miss (c : List CacheFile) (tf : String) (years : Option (List Nat)) :
    ∀ (ss : List String) (s : String), s ∈ ss →
      matchesKey c (cacheKey s tf years) = [] → lookupAll c tf years ss = none := by
  intro ss
  induction ss with
  | nil =>
    intro s hs
    cases hs
  | cons a t ih =>
    intro s hs hm
    rcases List.mem_cons.1 hs with rfl | hs
    · unfold lookupAll
      rw [hm]
      rfl
    · unfold lookupAll
      rcases hp : pickLatest (matchesKey c (cacheKey a tf years)) with _ | e
      · rfl
      · rw [ih s hs hm]
        rfl

theorem load_kline_rebuild_eq (k : KlineFS) (cache : List CacheFile) (now : Nat)
    (tf : String) (years : Option (List Nat)) (syms : List String)
    (htf : tf ∈ validTimeframes) (hs : syms ≠ []) (hroot : k.rootExists = true)
    (hca : lookupAll (sweep cache now 1) tf years syms = none) :
    (load_kline k cache now tf years (some syms)).1 = rebuildResult k tf years syms := by
  have hsnd := rebuild_snd k tf years syms
  unfold load_kline
  rw [if_pos htf]
  simp only [List.isEmpty_iff]
  rw [if_neg hs, if_pos hroot]
  simp only [hca]
  unfold rebuildResult
  rw [← hsnd]
  by_cases hemp : rebuildLoad k tf years syms = []
  · rw [if_pos hemp, hemp]
    rfl
  · rw [if_neg hemp]
    have hne : ((rebuildLoad k tf years syms).map (fun p => p.2)).isEmpty = false := by
      rw [List.isEmpty_eq_false]
      intro h0
      exact hemp (List.map_eq_nil_iff.1 h0)
    rw [if_neg (by rw [hne]; exact Bool.false_ne_true)]

/-- C1: when some requested symbol has no cache entry for its key
`(symbol, timeframe, year-set)`, the result of `load_kline` equals
`rebuildResult`, a function of the source tree alone in which the cache
appears nowhere — every requested symbol is re-read from source files and
no cached table contributes any rows (the entries read before the miss are
discarded). -/
theorem c1_cache_all_or_nothing (k : KlineFS) (cache : List CacheFile) (now : Nat)
    (tf : String) (years : Option (List Nat)) (syms : List String) (s : String)
    (htf : tf ∈ validTimeframes) (hroot : k.rootExists = true)
    (hs : s ∈ syms) (hmiss : ∀ e ∈ cache, e.key ≠ cacheKey s tf years) :
    (load_kline k cache now tf years (some syms)).1 = rebuildResult k tf years syms := by
  have hmk : matchesKey (sweep cache now 1) (cacheKey s tf years) = [] :=
    matchesKey_nil_of_none _ _ (fun e he => hmiss e (List.mem_filter.1 he).1)
  have hca := lookupAll_none_of_miss _ tf years syms s hs hmk
  have hne : syms ≠ [] := by
    intro h0
    rw [h0] at hs
    cases hs
  exact load_kline_rebuild_eq k cache now tf years syms htf hne hroot hca

/-- Witness for C1: symbol `"B"` has a cache entry but `"A"` has none, so
the call rebuilds both from source and ignores the cached table. -/
theorem c1_witness :
    ("1m" ∈ validTimeframes) ∧
    (KlineFS.rootExists ⟨true,
      [("A", [("A_kline_1m_2024.parquet", [⟨"A", 3, 1, 0⟩])]),
        ("B", [("B_kline_1m_2024.parquet", [⟨"B", 1, 2, 0⟩])])]⟩ = true) ∧
    ("A" ∈ ["A", "B"]) ∧
    (∀ e ∈ [(⟨"B_1m-all", 99999, [⟨"B", 7, 99, 9⟩]⟩ : CacheFile)],
      CacheFile.key e ≠ cacheKey "A" "1m" none) ∧
    (load_kline ⟨true,
        [("A", [("A_kline_1m_2024.parquet", [⟨"A", 3, 1, 0⟩])]),
          ("B", [("B_kline_1m_2024.parquet", [⟨"B", 1, 2, 0⟩])])]⟩
        [⟨"B_1m-all", 99999, [⟨"B", 7, 99, 9⟩]⟩] 100000 "1m" none (some ["A", "B"])).1 =
      rebuildResult ⟨true,
        [("A", [("A_kline_1m_2024.parquet", [⟨"A", 3, 1, 0⟩])]),
          ("B", [("B_kline_1m_2024.parquet", [⟨"B", 1, 2, 0⟩])])]⟩ "1m" none ["A", "B"] :=
  ⟨by decide, rfl, by decide, by decide,
    c1_cache_all_or_nothing
      ⟨true,
        [("A", [("A_kline_1m_2024.parquet", [⟨"A", 3, 1, 0⟩])]),
          ("B", [("B_kline_1m_2024.parquet", [⟨"B", 1, 2, 0⟩])])]⟩
      [⟨"B_1m-all", 99999, [⟨"B", 7, 99, 9⟩]⟩] 100000 "1m" none ["A", "B"] "A"
      (by decide) rfl (by decide) (by decide)⟩

/-- C5 counterexample: with a source root that contains no symbol
directory, `load_kline` for one symbol produces no rows; the call then
fails, but with a `RuntimeError` (the `FileNotFoundError` raised inside the
`try:` block is caught by its own `except` and re-raised wrapped), not with
a `FileNotFoundError` as the claim states. -/
theorem c5_counterexample :
    (load_kline ⟨true, []⟩ [] 0 "1m" none (some ["BTCUSDT"])).1 =
      .error (.loadError noDataMsg) ∧
    isNotFoundRes (load_kline ⟨true, []⟩ [] 0 "1m" none (some ["BTCUSDT"])).1 = false := by
  constructor
  · decide
  · decide

/-- C5 (amended): on the rebuild path, a symbol with no matching source
files is skipped rather than failing the call — if any other requested
symbol produces rows the call still succeeds; when no requested symbol
produces any rows the call fails, with a `RuntimeError` wrapping the
"No data found" `FileNotFoundError` message. -/
theorem c5_skip_missing_symbols (k : KlineFS) (cache : List CacheFile) (now : Nat)
    (tf : String) (years : Option (List Nat)) (syms : List String) (s : String)
    (htf : tf ∈ validTimeframes) (hroot : k.rootExists = true)
    (hs : s ∈ syms) (hmiss : ∀ e ∈ cache, e.key ≠ cacheKey s tf years) :
    ((∀ s' ∈ syms, sourceLoad k tf years s' = none) →
      (load_kline k cache now tf years (some syms)).1 = .error (.loadError noDataMsg)) ∧
    (∀ s' ∈ syms, ∀ rows, sourceLoad k tf years s' = some rows →
      ∃ t, (load_kline k cache now tf years (some syms)).1 = .ok t) := by
  have hmk : matchesKey (sweep cache now 1) (cacheKey s tf years) = [] :=
    matchesKey_nil_of_none _ _ (fun e he => hmiss e (List.mem_filter.1 he).1)
  have hca := lookupAll_none_of_miss _ tf years syms s hs hmk
  have hne : syms ≠ [] := by
    intro h0
    rw [h0] at hs
    cases hs
  have heq := load_kline_rebuild_eq k cache now tf years syms htf hne hroot hca
  constructor
  · intro hall
    rw [heq]
    unfold rebuildResult
    have : syms.filterMap (sourceLoad k tf years) = [] := by
      rw [List.filterMap_eq_nil_iff]
      exact hall
    rw [this]
    rfl
  · intro s' hs' rows hrows
    rw [heq]
    unfold rebuildResult
    have hmemr : rows ∈ syms.filterMap (sourceLoad k tf years) :=
      List.mem_filterMap.2 ⟨s', hs', hrows⟩
    have : (syms.filterMap (sourceLoad k tf years)).isEmpty = false := by
      rw [List.isEmpty_eq_false]
      intro h0
      rw [h0] at hmemr
      cases hmemr
    rw [if_neg (by rw [this]; exact Bool.false_ne_true)]
    exact ⟨_, rfl⟩

/-- Witness for C5: symbol `"NOPE"` has no directory, yet the call
succeeds because `"A"` has data. -/
theorem c5_witness :
    ("1m" ∈ validTimeframes) ∧
    ("NOPE" ∈ ["NOPE", "A"]) ∧
    (sourceLoad ⟨true, [("A", [("A_kline_1m_2024.parquet", [⟨"A", 3, 1, 0⟩])])]⟩
        "1m" none "A" = some [⟨"A", 3, 1, 0⟩]) ∧
    (∃ t,
      (load_kline ⟨true, [("A", [("A_kline_1m_2024.parquet", [⟨"A", 3, 1, 0⟩])])]⟩
        [] 0 "1m" none (some ["NOPE", "A"])).1 = .ok t) :=
  ⟨by decide, by decide, by decide,
    (c5_skip_missing_symbols
        ⟨true, [("A", [("A_kline_1m_2024.parquet", [⟨"A", 3, 1, 0⟩])])]⟩
        [] 0 "1m" none ["NOPE", "A"] "NOPE"
        (by decide) rfl (by decide) (by decide)).2
      "A" (by decide) [⟨"A", 3, 1, 0⟩] (by decide)⟩

/-- C3: every table `load_kline` returns successfully — from the cache path
or the rebuild path — is sorted by (symbol, time) ascending (the reset
index is inherent to the list representation). -/
theorem c3_sorted_output (k : KlineFS) (cache : List CacheFile) (now : Nat)
    (tf : String) (years : Option (List Nat)) (symbols : Option (List String))
    (t : List Row)
    (h : (load_kline k cache now tf years symbols).1 = .ok t) :
    List.Sorted rowLE t := by
  unfold load_kline at h
  by_cases htf : tf ∈ validTimeframes
  · rw [if_pos htf] at h
    cases symbols with
    | none =>
      dsimp only at h
      cases h
    | some syms =>
      dsimp only at h
      by_cases hs : syms.isEmpty = true
      · rw [if_pos hs] at h
        cases h
      · rw [if_neg hs] at h
        by_cases hroot : k.rootExists = true
        · rw [if_pos hroot] at h
          cases hca : lookupAll (sweep cache now 1) tf years syms with
          | none =>
            simp only [hca] at h
            split at h
            · cases h
            · have := Except.ok.inj h
              rw [← this]
              exact List.sorted_insertionSort rowLE _
          | some dfs =>
            simp only [hca] at h
            have := Except.ok.inj h
            rw [← this]
            exact List.sorted_insertionSort rowLE _
        · rw [if_neg hroot] at h
          cases h
  · rw [if_neg htf] at h
    cases h

/-- Witness for C3: a concrete rebuild whose two files arrive unsorted. -/
theorem c3_witness :
    ((load_kline ⟨true, [("A", [("A_kline_1m_2024.parquet", [⟨"A", 9, 1, 0⟩, ⟨"A", 2, 5, 0⟩])])]⟩
        [] 0 "1m" none (some ["A"])).1 = .ok [⟨"A", 2, 5, 0⟩, ⟨"A", 9, 1, 0⟩]) ∧
    List.Sorted rowLE [(⟨"A", 2, 5, 0⟩ : Row), ⟨"A", 9, 1, 0⟩] :=
  ⟨by decide,
    c3_sorted_output ⟨true, [("A", [("A_kline_1m_2024.parquet", [⟨"A", 9, 1, 0⟩, ⟨"A", 2, 5, 0⟩])])]⟩
      [] 0 "1m" none (some ["A"]) [⟨"A", 2, 5, 0⟩, ⟨"A", 9, 1, 0⟩] (by decide)⟩

/-- The kline source tree restricted to files whose name carries one of
the requested year tokens. -/
def restrictYears (ys : List Nat) (k : KlineFS) : KlineFS :=
  ⟨k.rootExists, k.symDirs.map (fun d => (d.1, d.2.filter (fun f => yearTok ys f.1)))⟩

theorem lookup_map_filter (s : String) (p : String → Bool) :
    ∀ l : List (String × List (String × List Row)),
      (l.map (fun d => (d.1, d.2.filter (fun f => p f.1)))).lookup s =
        (l.lookup s).map (fun files => files.filter (fun f => p f.1)) := by
  intro l
  induction l with
  | nil => rfl
  | cons d t ih =>
    rw [List.map_cons]
    cases hbe : s == d.1 with
    | true => simp [List.lookup, hbe]
    | false => simp [List.lookup, hbe, ih]

theorem sourceLoad_restrict (k : KlineFS) (tf : String) (ys : List Nat) (s : String) :
    sourceLoad (restrictYears ys k) tf (some ys) s = sourceLoad k tf (some ys) s := by
  unfold sourceLoad restrictYears
  dsimp only
  rw [lookup_map_filter]
  cases hl : k.symDirs.lookup s with
  | none => rfl
  | some files =>
    simp only [Option.map_some']
    have hglob : klineGlob s tf (files.filter (fun f => yearTok ys f.1)) =
        (klineGlob s tf files).filter (fun f => yearTok ys f.1) := by
      unfold klineGlob
      rw [List.filter_filter, List.filter_filter]
      exact List.filter_congr (fun a _ => Bool.and_comm _ _)
    rw [hglob]
    have hyy : yearFilter (some ys)
        ((klineGlob s tf files).filter (fun f => yearTok ys f.1)) =
        (klineGlob s tf files).filter (fun f => yearTok ys f.1) := by
      unfold yearFilter
      dsimp only
      rw [List.filter_filter]
      exact List.filter_congr (fun a _ => Bool.and_self _)
    rw [hyy]
    by_cases hgye : ((klineGlob s tf files).filter (fun f => yearTok ys f.1)).isEmpty = true
    · rw [if_pos hgye]
      by_cases hge : (klineGlob s tf files).isEmpty = true
      · rw [if_pos hge]
      · rw [if_neg hge]
        unfold yearFilter
        dsimp only
        rw [if_pos hgye]
    · rw [if_neg hgye]
      have hge : ¬ (klineGlob s tf files).isEmpty = true := by
        intro h0
        rw [List.isEmpty_iff] at h0 hgye
        rw [h0] at hgye
        exact hgye rfl
      rw [if_neg hge]
      unfold yearFilter
      dsimp only

/-- C7: with an explicit years list, `load_kline` loads only source files
whose filename carries a `_{year}.` or `_{year}-` token for a requested
year — restricting the source tree to exactly those files changes nothing
about the call (first conjunct, for every filesystem, cache and request);
and in the concrete two-file scenario, `years=[2025]` returns only the rows
of the 2025 file (second conjunct). -/
theorem c7_year_filtering (k : KlineFS) (cache : List CacheFile) (now : Nat)
    (tf : String) (ys : List Nat) (symbols : Option (List String)) :
    (load_kline (restrictYears ys k) cache now tf (some ys) symbols =
      load_kline k cache now tf (some ys) symbols) ∧
    (load_kline
        ⟨true, [("BTCUSDT",
          [("BTCUSDT_kline_1m_2024.parquet", [⟨"BTCUSDT", 0, 1, 24⟩]),
            ("BTCUSDT_kline_1m_2025.parquet", [⟨"BTCUSDT", 5, 2, 25⟩])])]⟩
        [] 777 "1m" (some [2025]) (some ["BTCUSDT"]) =
      (.ok [⟨"BTCUSDT", 5, 2, 25⟩],
        [⟨"BTCUSDT_1m-2025", 777, [⟨"BTCUSDT", 5, 2, 25⟩]⟩])) := by
  constructor
  · have hsl : ∀ s, sourceLoad (restrictYears ys k) tf (some ys) s =
        sourceLoad k tf (some ys) s := sourceLoad_restrict k tf ys
    have hrb : rebuildLoad (restrictYears ys k) tf (some ys) =
        rebuildLoad k tf (some ys) := by
      funext ss
      unfold rebuildLoad
      have : (fun s => (sourceLoad (restrictYears ys k) tf (some ys) s).map
            (fun c => (s, c))) =
          (fun s => (sourceLoad k tf (some ys) s).map (fun c => (s, c))) := by
        funext s
        rw [hsl]
      rw [this]
    unfold load_kline
    rw [hrb]
    rfl
  · decide

theorem blockAnn_map_row : ∀ (block : List Row) (prev : List Rat),
    (blockAnn block prev).map (fun q => q.row) = block := by
  intro block
  induction block with
  | nil => intro prev; rfl
  | cons r rest ih =>
    intro prev
    unfold blockAnn
    rw [List.map_cons, ih]

theorem blockAnn_length (block : List Row) (prev : List Rat) :
    (blockAnn block prev).length = block.length := by
  have h := congrArg List.length (blockAnn_map_row block prev)
  simpa using h

theorem annotateGo_filter (s : String) :
    ∀ (df : List Row) (seen : List (String × List Rat)),
      (annotateGo df seen).filter (fun q => q.row.symbol == s) =
        blockAnn (df.filter (fun r => r.symbol == s)) ((seen.lookup s).getD []) := by
  intro df
  induction df with
  | nil => intro seen; rfl
  | cons r rest ih =>
    intro seen
    unfold annotateGo
    rw [List.filter_cons, List.filter_cons]
    cases hbe : r.symbol == s with
    | true =>
      have hrs : r.symbol = s := eq_of_beq hbe
      subst hrs
      simp only [hbe, if_true]
      unfold blockAnn
      rw [ih ((r.symbol, r.close :: ((seen.lookup r.symbol).getD [])) :: seen)]
      have hlk : (((r.symbol, r.close :: ((seen.lookup r.symbol).getD [])) :: seen).lookup
          r.symbol).getD [] = r.close :: ((seen.lookup r.symbol).getD []) := by
        simp [List.lookup]
      rw [hlk]
    | false =>
      have hsr : (s == r.symbol) = false := by
        rw [beq_eq_false_iff_ne]
        intro h0
        rw [beq_eq_false_iff_ne] at hbe
        exact hbe h0.symm
      simp only [hbe, Bool.false_eq_true, if_false]
      rw [ih ((r.symbol, r.close :: ((seen.lookup r.symbol).getD [])) :: seen)]
      have hlk : (((r.symbol, r.close :: ((seen.lookup r.symbol).getD [])) :: seen).lookup s) =
          seen.lookup s := by
        simp [List.lookup, hsr]
      rw [hlk]

theorem blockAnn_get : ∀ (block : List Row) (prev : List Rat) (i : Nat)
    (hi : i < (blockAnn block prev).length) (hb : i < block.length),
    (blockAnn block prev).get ⟨i, hi⟩ =
      ⟨block.get ⟨i, hb⟩,
        winMean 7 (((block.take (i + 1)).map (fun r => r.close)).reverse ++ prev),
        winMean 25 (((block.take (i + 1)).map (fun r => r.close)).reverse ++ prev),
        winMean 99 (((block.take (i + 1)).map (fun r => r.close)).reverse ++ prev)⟩ := by
  intro block
  induction block with
  | nil =>
    intro prev i hi hb
    exact absurd hb (Nat.not_lt_zero i)
  | cons r rest ih =>
    intro prev i hi hb
    cases i with
    | zero => simp [blockAnn]
    | succ n =>
      have hi' : n < (blockAnn rest (r.close :: prev)).length := by
        rw [blockAnn_length]
        rw [blockAnn_length] at hi
        exact Nat.succ_lt_succ_iff.1 (by simpa using hi)
      have hb' : n < rest.length := Nat.succ_lt_succ_iff.1 (by simpa using hb)
      have hstep : (blockAnn (r :: rest) prev).get ⟨n + 1, hi⟩ =
          (blockAnn rest (r.close :: prev)).get ⟨n, hi'⟩ := rfl
      rw [hstep, ih (r.close :: prev) n hi' hb']
      have harg : ((rest.take (n + 1)).map (fun r => r.close)).reverse ++ (r.close :: prev) =
          (((r :: rest).take (n + 2)).map (fun r => r.close)).reverse ++ prev := by
        rw [List.take_succ_cons, List.map_cons, List.reverse_cons, List.append_assoc]
        rfl
      rw [harg]
      rfl

theorem take_reverse_sum (l : List Rat) (w : Nat) :
    l.reverse.take w = (l.drop (l.length - w)).reverse := by
  have h := List.reverse_take (l := l.reverse) (n := w)
  rw [List.reverse_reverse, List.length_reverse] at h
  calc l.reverse.take w = ((l.reverse.take w).reverse).reverse := (List.reverse_reverse _).symm
    _ = (l.drop (l.length - w)).reverse := by rw [h]

theorem winMean_meanTail (w : Nat) (closes : List Rat) (i : Nat) (hi : i < closes.length) :
    winMean w ((closes.take (i + 1)).reverse) = meanTail w closes i := by
  unfold winMean meanTail
  have hlen : (closes.take (i + 1)).length = i + 1 := by
    rw [List.length_take]
    omega
  rw [take_reverse_sum (closes.take (i + 1)) w, List.sum_reverse, List.length_reverse, hlen]

/-- C2: in any table returned by `load_ticker_set_sma`, the row at
position `i` of a symbol's block carries in `ma7` the arithmetic mean of
`Close` over rows `max(0, i-6) .. i` of that symbol's block only — rows of
other symbols never enter the window — and likewise `ma25` with window 25
and `ma99` with window 99.  (The symbol's block is its subsequence of the
table; by C3 the table is sorted, so this subsequence is its contiguous
block.) -/
theorem c2_sma_windows (k : KlineFS) (cache : List CacheFile) (now : Nat)
    (tf : String) (years : Option (List Nat)) (symbols : Option (List String))
    (df : List SmaRow) (c2 : List CacheFile)
    (h : load_ticker_set_sma k cache now tf years symbols = (.ok df, c2))
    (s : String) (i : Nat) (q : SmaRow)
    (hq : (df.filter (fun p => p.row.symbol == s))[i]? = some q) :
    q.ma7 = meanTail 7 ((df.filter (fun p => p.row.symbol == s)).map (fun p => p.row.close)) i ∧
    q.ma25 = meanTail 25 ((df.filter (fun p => p.row.symbol == s)).map (fun p => p.row.close)) i ∧
    q.ma99 = meanTail 99 ((df.filter (fun p => p.row.symbol == s)).map (fun p => p.row.close)) i := by
  unfold load_ticker_set_sma at h
  have h1 : (load_kline k cache now tf years symbols).1.map annotateSMA = .ok df :=
    congrArg Prod.fst h
  cases hl : (load_kline k cache now tf years symbols).1 with
  | error e => rw [hl] at h1; cases h1
  | ok t =>
    rw [hl] at h1
    have hdf : df = annotateSMA t := (Except.ok.inj h1).symm
    subst hdf
    have hfil : (annotateSMA t).filter (fun p => p.row.symbol == s) =
        blockAnn (t.filter (fun r => r.symbol == s)) [] := by
      unfold annotateSMA
      rw [annotateGo_filter s t []]
      rfl
    have hclo : ((annotateSMA t).filter (fun p => p.row.symbol == s)).map
        (fun p => p.row.close) = (t.filter (fun r => r.symbol == s)).map
        (fun r => r.close) := by
      rw [hfil]
      rw [show (fun (p : SmaRow) => p.row.close) =
        ((fun r : Row => r.close) ∘ (fun p : SmaRow => p.row)) from rfl]
      rw [← List.map_map, blockAnn_map_row]
    rw [hfil] at hq
    obtain ⟨hi, hget⟩ := List.getElem?_eq_some.1 hq
    have hb : i < (t.filter (fun r => r.symbol == s)).length := by
      rw [blockAnn_length] at hi
      exact hi
    have hqv : q = (blockAnn (t.filter (fun r => r.symbol == s)) []).get ⟨i, hi⟩ := by
      rw [List.get_eq_getElem]
      exact hget.symm
    rw [hqv, blockAnn_get (t.filter (fun r => r.symbol == s)) [] i hi hb]
    have hlen : i < ((t.filter (fun r => r.symbol == s)).map (fun r => r.close)).length := by
      rw [List.length_map]
      exact hb
    have harg : ∀ w : Nat,
        winMean w ((((t.filter (fun r => r.symbol == s)).take (i + 1)).map
            (fun r => r.close)).reverse ++ []) =
          meanTail w ((t.filter (fun r => r.symbol == s)).map (fun r => r.close)) i := by
      intro w
      rw [List.append_nil, List.map_take]
      exact winMean_meanTail w _ i hlen
    rw [hclo]
    exact ⟨harg 7, harg 25, harg 99⟩

unseal Rat.add Rat.mul Rat.inv in
/-- Witness for C2: a two-row single-symbol table; at block position 1 the
ma7 value 3 is the mean of the closes 2 and 4. -/
theorem c2_witness :
    (load_ticker_set_sma ⟨true, [("A", [("A_kline_1m_2025.parquet",
        [⟨"A", 0, 2, 0⟩, ⟨"A", 1, 4, 0⟩])])]⟩ [] 9 "1m" none (some ["A"]) =
      (.ok [⟨⟨"A", 0, 2, 0⟩, 2, 2, 2⟩, ⟨⟨"A", 1, 4, 0⟩, 3, 3, 3⟩],
        [⟨"A_1m-all", 9, [⟨"A", 0, 2, 0⟩, ⟨"A", 1, 4, 0⟩]⟩])) ∧
    (([(⟨⟨"A", 0, 2, 0⟩, 2, 2, 2⟩ : SmaRow), ⟨⟨"A", 1, 4, 0⟩, 3, 3, 3⟩].filter
        (fun p => p.row.symbol == "A"))[1]? = some ⟨⟨"A", 1, 4, 0⟩, 3, 3, 3⟩) ∧
    (SmaRow.ma7 ⟨⟨"A", 1, 4, 0⟩, 3, 3, 3⟩ =
      meanTail 7 (([(⟨⟨"A", 0, 2, 0⟩, 2, 2, 2⟩ : SmaRow), ⟨⟨"A", 1, 4, 0⟩, 3, 3, 3⟩].filter
        (fun p => p.row.symbol == "A")).map (fun p => p.row.close)) 1 ∧
     SmaRow.ma25 ⟨⟨"A", 1, 4, 0⟩, 3, 3, 3⟩ =
      meanTail 25 (([(⟨⟨"A", 0, 2, 0⟩, 2, 2, 2⟩ : SmaRow), ⟨⟨"A", 1, 4, 0⟩, 3, 3, 3⟩].filter
        (fun p => p.row.symbol == "A")).map (fun p => p.row.close)) 1 ∧
     SmaRow.ma99 ⟨⟨"A", 1, 4, 0⟩, 3, 3, 3⟩ =
      meanTail 99 (([(⟨⟨"A", 0, 2, 0⟩, 2, 2, 2⟩ : SmaRow), ⟨⟨"A", 1, 4, 0⟩, 3, 3, 3⟩].filter
        (fun p => p.row.symbol == "A")).map (fun p => p.row.close)) 1) :=
  ⟨by decide, by decide,
    c2_sma_windows ⟨true, [("A", [("A_kline_1m_2025.parquet",
        [⟨"A", 0, 2, 0⟩, ⟨"A", 1, 4, 0⟩])])]⟩ [] 9 "1m" none (some ["A"])
      [⟨⟨"A", 0, 2, 0⟩, 2, 2, 2⟩, ⟨⟨"A", 1, 4, 0⟩, 3, 3, 3⟩]
      [⟨"A_1m-all", 9, [⟨"A", 0, 2, 0⟩, ⟨"A", 1, 4, 0⟩]⟩]
      (by decide) "A" 1 ⟨⟨"A", 1, 4, 0⟩, 3, 3, 3⟩ (by decide)⟩

theorem pickLatest_mem : ∀ (l : List CacheFile) (e : CacheFile),
    pickLatest l = some e → e ∈ l := by
  have hgen : ∀ (l : List CacheFile) (acc : Option CacheFile) (e : CacheFile),
      l.foldl (fun acc e =>
        match acc with
        | none => some e
        | some b => if b.ts < e.ts then some e else acc) acc = some e →
      acc = some e ∨ e ∈ l := by
    intro l
    induction l with
    | nil =>
      intro acc e h
      exact Or.inl h
    | cons x t ih =>
      intro acc e h
      rw [List.foldl_cons] at h
      rcases ih _ e h with hstep | hmem
      · cases acc with
        | none =>
          cases hstep
          exact Or.inr (List.mem_cons_self _ _)
        | some b =>
          by_cases hlt : b.ts < x.ts
          · have hx : some x = some e := by
              rw [← hstep]
              simp [hlt]
            cases hx
            exact Or.inr (List.mem_cons_self _ _)
          · have hb : some b = some e := by
              rw [← hstep]
              simp [hlt]
            exact Or.inl hb
      · exact Or.inr (List.mem_cons_of_mem _ hmem)
  intro l e h
  rcases hgen l none e h with h0 | hm
  · cases h0
  · exact hm

theorem lookupAll_some_forall (c : List CacheFile) (tf : String) (years : Option (List Nat)) :
    ∀ (ss : List String) (dfs : List (List Row)),
      lookupAll c tf years ss = some dfs →
      dfs = ss.map (fun s =>
        ((pickLatest (matchesKey c (cacheKey s tf years))).map (fun e => e.content)).getD []) ∧
      ∀ s ∈ ss, (pickLatest (matchesKey c (cacheKey s tf years))).isSome = true := by
  intro ss
  induction ss with
  | nil =>
    intro dfs h
    unfold lookupAll at h
    cases h
    exact ⟨rfl, by simp⟩
  | cons a t ih =>
    intro dfs h
    unfold lookupAll at h
    cases hp : pickLatest (matchesKey c (cacheKey a tf years)) with
    | none => rw [hp] at h; cases h
    | some e =>
      rw [hp] at h
      rcases Option.map_eq_some'.1 h with ⟨dfs', hdfs', rfl⟩
      obtain ⟨hmap, hsome⟩ := ih dfs' hdfs'
      refine ⟨?_, ?_⟩
      · rw [List.map_cons, hp, ← hmap]
        rfl
      · intro s hs
        rcases List.mem_cons.1 hs with rfl | hs
        · rw [hp]; rfl
        · exact hsome s hs

theorem filterMap_eq_map_getD (f : String → Option (List Row)) :
    ∀ ss : List String, (∀ s ∈ ss, (f s).isSome = true) →
      ss.filterMap f = ss.map (fun s => (f s).getD []) := by
  intro ss
  induction ss with
  | nil => intro _; rfl
  | cons a t ih =>
    intro hall
    rw [List.filterMap_cons, List.map_cons]
    cases hf : f a with
    | none =>
      have := hall a (List.mem_cons_self _ _)
      rw [hf] at this
      cases this
    | some v =>
      rw [ih (fun s hs => hall s (List.mem_cons_of_mem _ hs))]
      rfl

theorem cacheKey_inj (a b tf : String) (years : Option (List Nat))
    (h : cacheKey a tf years = cacheKey b tf years) : a = b := by
  unfold cacheKey at h
  have hdata := congrArg String.data h
  simp only [String.data_append, List.append_assoc] at hdata
  exact strData_inj (List.append_cancel_right hdata)

theorem load_kline_cases (k : KlineFS) (cache : List CacheFile) (now : Nat)
    (tf : String) (years : Option (List Nat)) (syms : List String)
    (htf : tf ∈ validTimeframes) (hs : ¬ syms.isEmpty = true) (hroot : k.rootExists = true) :
    (∃ dfs, lookupAll (sweep cache now 1) tf years syms = some dfs ∧
      load_kline k cache now tf years (some syms) =
        (.ok (sortRows dfs.flatten), sweep cache now 1)) ∨
    (lookupAll (sweep cache now 1) tf years syms = none ∧
      ((rebuildLoad k tf years syms = [] ∧
        load_kline k cache now tf years (some syms) =
          (.error (.loadError noDataMsg), sweep cache now 1)) ∨
       (rebuildLoad k tf years syms ≠ [] ∧
        load_kline k cache now tf years (some syms) =
          (.ok (sortRows ((rebuildLoad k tf years syms).map (fun p => p.2)).flatten),
            sweep cache now 1 ++ (rebuildLoad k tf years syms).map
              (fun p => ⟨cacheKey p.1 tf years, now, p.2⟩))))) := by
  unfold load_kline
  rw [if_pos htf]
  dsimp only
  rw [if_neg hs, if_pos hroot]
  cases hla : lookupAll (sweep cache now 1) tf years syms with
  | some dfs => exact Or.inl ⟨dfs, rfl, rfl⟩
  | none =>
    refine Or.inr ⟨rfl, ?_⟩
    simp only [List.isEmpty_iff]
    by_cases hemp : rebuildLoad k tf years syms = []
    · rw [if_pos hemp]
      exact Or.inl ⟨hemp, by rw [hemp]; simp⟩
    · rw [if_neg hemp]
      exact Or.inr ⟨hemp, rfl⟩

theorem lookupAll_some_canon (k : KlineFS) (tf : String) (years : Option (List Nat))
    (syms : List String) (c : List CacheFile) (dfs : List (List Row))
    (hcoh : ∀ e ∈ c, ∀ s ∈ syms, e.key = cacheKey s tf years →
      sourceLoad k tf years s = some e.content)
    (hla : lookupAll c tf years syms = some dfs) :
    dfs = syms.filterMap (sourceLoad k tf years) ∧
    ∀ s ∈ syms, (sourceLoad k tf years s).isSome = true := by
  obtain ⟨hmap, hsome⟩ := lookupAll_some_forall c tf years syms dfs hla
  have hpoint : ∀ s ∈ syms,
      ((pickLatest (matchesKey c (cacheKey s tf years))).map (fun e => e.content)).getD [] =
        (sourceLoad k tf years s).getD [] ∧ (sourceLoad k tf years s).isSome = true := by
    intro s hs
    have h1 := hsome s hs
    cases hp : pickLatest (matchesKey c (cacheKey s tf years)) with
    | none => rw [hp] at h1; cases h1
    | some e =>
      have hem := pickLatest_mem _ e hp
      have hef := List.mem_filter.1 hem
      have hkey : e.key = cacheKey s tf years := by
        have := hef.2
        rwa [beq_iff_eq] at this
      have hsl : sourceLoad k tf years s = some e.content :=
        hcoh e hef.1 s hs hkey
      simp [hsl, hp]
  refine ⟨?_, fun s hs => (hpoint s hs).2⟩
  rw [hmap, filterMap_eq_map_getD (sourceLoad k tf years) syms
    (fun s hs => (hpoint s hs).2)]
  exact List.map_congr_left (fun s hs => (hpoint s hs).1)

theorem second_call_ok (k : KlineFS) (cache1 : List CacheFile) (now2 : Nat)
    (tf : String) (years : Option (List Nat)) (syms : List String) (r1 : List Row)
    (htf : tf ∈ validTimeframes) (hs : ¬ syms.isEmpty = true) (hroot : k.rootExists = true)
    (hcoh2 : ∀ e ∈ cache1, ∀ s ∈ syms, e.key = cacheKey s tf years →
      sourceLoad k tf years s = some e.content)
    (hcanon_ne : syms.filterMap (sourceLoad k tf years) ≠ [])
    (hr1 : r1 = sortRows (syms.filterMap (sourceLoad k tf years)).flatten) :
    (load_kline k cache1 now2 tf years (some syms)).1 = .ok r1 := by
  have hcoh2' : ∀ e ∈ sweep cache1 now2 1, ∀ s ∈ syms, e.key = cacheKey s tf years →
      sourceLoad k tf years s = some e.content :=
    fun e he => hcoh2 e (List.mem_filter.1 he).1
  rcases load_kline_cases k cache1 now2 tf years syms htf hs hroot with
    ⟨dfs2, hla2, hload2⟩ | ⟨hla2, hrb2⟩
  · rw [hload2]
    obtain ⟨hdfs2, _⟩ := lookupAll_some_canon k tf years syms _ _ hcoh2' hla2
    dsimp only
    rw [hdfs2, hr1]
  · rcases hrb2 with ⟨hemp2, _⟩ | ⟨hne2, hload2⟩
    · exfalso
      apply hcanon_ne
      rw [← rebuild_snd, hemp2]
      rfl
    · rw [hload2]
      dsimp only
      rw [rebuild_snd, hr1]

/-- C9: calling `load_kline` twice with identical arguments against an
unchanged source tree yields row-identical tables — the second call may be
served from the cache the first call wrote.  The cache the pair of calls
starts from is assumed consistent with the source tree (every entry whose
key matches a requested symbol stores that symbol's source-derived table),
which holds in particular for the empty cache and for any cache previous
`load_kline` calls produced against the same tree. -/
theorem c9_idempotent_reload (k : KlineFS) (cache : List CacheFile) (now1 now2 : Nat)
    (tf : String) (years : Option (List Nat)) (syms : List String)
    (r1 : List Row) (cache1 : List CacheFile)
    (hcoh : ∀ e ∈ cache, ∀ s ∈ syms, e.key = cacheKey s tf years →
      sourceLoad k tf years s = some e.content)
    (h1 : load_kline k cache now1 tf years (some syms) = (.ok r1, cache1)) :
    (load_kline k cache1 now2 tf years (some syms)).1 = .ok r1 := by
  have htf : tf ∈ validTimeframes := by
    by_contra htf
    unfold load_kline at h1
    rw [if_neg htf] at h1
    cases congrArg Prod.fst h1
  have hs : ¬ syms.isEmpty = true := by
    intro hs0
    unfold load_kline at h1
    rw [if_pos htf] at h1
    dsimp only at h1
    rw [if_pos hs0] at h1
    cases congrArg Prod.fst h1
  have hroot : k.rootExists = true := by
    by_contra hroot
    unfold load_kline at h1
    rw [if_pos htf] at h1
    dsimp only at h1
    rw [if_neg hs, if_neg hroot] at h1
    cases congrArg Prod.fst h1
  -- analyse the first call
  have hsyms_ne : syms ≠ [] := by
    intro h0
    rw [h0] at hs
    exact hs rfl
  have hcoh1 : ∀ e ∈ sweep cache now1 1, ∀ s ∈ syms, e.key = cacheKey s tf years →
      sourceLoad k tf years s = some e.content :=
    fun e he => hcoh e (List.mem_filter.1 he).1
  rcases load_kline_cases k cache now1 tf years syms htf hs hroot with
    ⟨dfs, hla, hload⟩ | ⟨hla, hrb⟩
  · -- first call fully served from cache
    rw [hload] at h1
    obtain ⟨hr1, hc1⟩ : sortRows dfs.flatten = r1 ∧ sweep cache now1 1 = cache1 := by
      have h1a := congrArg Prod.fst h1
      have h1b := congrArg Prod.snd h1
      exact ⟨Except.ok.inj h1a, h1b⟩
    obtain ⟨hdfs, hallsome⟩ := lookupAll_some_canon k tf years syms _ _ hcoh1 hla
    have hr1' : r1 = sortRows (syms.filterMap (sourceLoad k tf years)).flatten := by
      rw [← hr1, hdfs]
    have hcanon_ne : syms.filterMap (sourceLoad k tf years) ≠ [] := by
      cases hsym0 : syms with
      | nil => exact absurd hsym0 hsyms_ne
      | cons a t =>
        rw [filterMap_eq_map_getD _ _ (by rw [← hsym0]; exact hallsome)]
        simp
    have hcoh2 : ∀ e ∈ cache1, ∀ s ∈ syms, e.key = cacheKey s tf years →
        sourceLoad k tf years s = some e.content := by
      rw [← hc1]
      exact hcoh1
    exact second_call_ok k cache1 now2 tf years syms r1 htf hs hroot hcoh2 hcanon_ne hr1'
  · -- first call rebuilt from source
    rcases hrb with ⟨hemp, hload⟩ | ⟨hne, hload⟩
    · rw [hload] at h1
      cases congrArg Prod.fst h1
    · rw [hload] at h1
      have hr1 : sortRows ((rebuildLoad k tf years syms).map (fun p => p.2)).flatten = r1 :=
        Except.ok.inj (congrArg Prod.fst h1)
      have hc1 : sweep cache now1 1 ++ (rebuildLoad k tf years syms).map
          (fun p => ⟨cacheKey p.1 tf years, now1, p.2⟩) = cache1 :=
        congrArg Prod.snd h1
      have hr1' : r1 = sortRows (syms.filterMap (sourceLoad k tf years)).flatten := by
        rw [← hr1, rebuild_snd]
      have hcanon_ne : syms.filterMap (sourceLoad k tf years) ≠ [] := by
        rw [← rebuild_snd]
        intro h0
        exact hne (List.map_eq_nil_iff.1 h0)
      have hcoh2 : ∀ e ∈ cache1, ∀ s ∈ syms, e.key = cacheKey s tf years →
          sourceLoad k tf years s = some e.content := by
        rw [← hc1]
        intro e he s hsmem hkey
        rcases List.mem_append.1 he with hm | hm
        · exact hcoh1 e hm s hsmem hkey
        · rcases List.mem_map.1 hm with ⟨p, hp, rfl⟩
          rcases List.mem_filterMap.1 hp with ⟨s', hs', hps⟩
          rcases Option.map_eq_some'.1 hps with ⟨c', hc', hpc⟩
          have hpkey : p.1 = s' := by rw [← hpc]
          have hpcontent : p.2 = c' := by rw [← hpc]
          dsimp only at hkey
          rw [hpkey] at hkey
          have hss' : s' = s := cacheKey_inj s' s tf years hkey
          dsimp only
          rw [hpcontent, ← hss', hc']
      exact second_call_ok k cache1 now2 tf years syms r1 htf hs hroot hcoh2 hcanon_ne hr1'

/-- Witness for C9: a first call that rebuilds and caches symbol `"A"`,
then a second call served from that cache, returning the same table. -/
theorem c9_witness :
    (∀ e ∈ ([] : List CacheFile), ∀ s ∈ ["A"], CacheFile.key e = cacheKey s "1m" none →
      sourceLoad ⟨true, [("A", [("A_kline_1m_2024.parquet", [⟨"A", 3, 1, 0⟩])])]⟩
        "1m" none s = some e.content) ∧
    (load_kline ⟨true, [("A", [("A_kline_1m_2024.parquet", [⟨"A", 3, 1, 0⟩])])]⟩
        [] 10 "1m" none (some ["A"]) =
      (.ok [⟨"A", 3, 1, 0⟩], [⟨"A_1m-all", 10, [⟨"A", 3, 1, 0⟩]⟩])) ∧
    ((load_kline ⟨true, [("A", [("A_kline_1m_2024.parquet", [⟨"A", 3, 1, 0⟩])])]⟩
        [⟨"A_1m-all", 10, [⟨"A", 3, 1, 0⟩]⟩] 20 "1m" none (some ["A"])).1 =
      .ok [⟨"A", 3, 1, 0⟩]) :=
  ⟨fun e he => absurd he (List.not_mem_nil e), by decide,
    c9_idempotent_reload ⟨true, [("A", [("A_kline_1m_2024.parquet", [⟨"A", 3, 1, 0⟩])])]⟩
      [] 10 20 "1m" none ["A"] [⟨"A", 3, 1, 0⟩] [⟨"A_1m-all", 10, [⟨"A", 3, 1, 0⟩]⟩]
      (fun e he => absurd he (List.not_mem_nil e)) (by decide)⟩

theorem lookup_pair_mem {β : Type} :
    ∀ (m : List (String × β)) (name : String) (t : β),
      List.lookup name m = some t → (name, t) ∈ m := by
  intro m
  induction m with
  | nil =>
    intro name t h
    cases h
  | cons d rest ih =>
    intro name t h
    obtain ⟨key, v⟩ := d
    cases hbe : name == key with
    | true =>
      have hk : name = key := eq_of_beq hbe
      rw [List.lookup_cons, hbe] at h
      cases h
      rw [hk]
      exact List.mem_cons_self _ _
    | false =>
      rw [List.lookup_cons, hbe] at h
      exact List.mem_cons_of_mem _ (ih name t h)

theorem mem_unionFold (c : String) :
    ∀ (ls : List (List String)) (acc : List String),
      (c ∈ ls.foldl (fun acc cs => acc ++ cs.filter (fun x => !acc.contains x)) acc ↔
        c ∈ acc ∨ ∃ l ∈ ls, c ∈ l) := by
  intro ls
  induction ls with
  | nil =>
    intro acc
    simp
  | cons cs rest ih =>
    intro acc
    rw [List.foldl_cons, ih]
    constructor
    · rintro (hm | hm)
      · rcases List.mem_append.1 hm with hm | hm
        · exact Or.inl hm
        · exact Or.inr ⟨cs, List.mem_cons_self _ _, (List.mem_filter.1 hm).1⟩
      · rcases hm with ⟨l, hl, hcl⟩
        exact Or.inr ⟨l, List.mem_cons_of_mem _ hl, hcl⟩
    · rintro (hm | ⟨l, hl, hcl⟩)
      · exact Or.inl (List.mem_append_left _ hm)
      · rcases List.mem_cons.1 hl with rfl | hl
        · by_cases hin : c ∈ acc
          · exact Or.inl (List.mem_append_left _ hin)
          · refine Or.inl (List.mem_append_right _ (List.mem_filter.2 ⟨hcl, ?_⟩))
            simp [hin]
        · exact Or.inr ⟨l, hl, hcl⟩

theorem mem_aggConcat (c : String) (ls : List (List String)) :
    c ∈ aggConcat ls ↔ ∃ l ∈ ls, c ∈ l := by
  cases ls with
  | nil =>
    unfold aggConcat unionCols
    simp
  | cons c1 rest =>
    cases rest with
    | nil =>
      show c ∈ c1 ↔ _
      simp
    | cons c2 rest2 =>
      show c ∈ unionCols (c1 :: c2 :: rest2) ↔ _
      unfold unionCols
      rw [mem_unionFold]
      simp

/-- C10: a successful non-aggTrades `load_parquet` call returns the columns
of the latest-resolved file with every column whose lower-cased name is one
of open, high, low, close, volume renamed to its capitalized form and all
other columns kept verbatim (`renameOHLCV`); a successful aggTrades call
performs no renaming — the returned column names are exactly the names
stored in the matched files. -/
theorem c10_parquet_column_names (fs : ParquetFS) (source market dataType : String)
    (sym : String) (detail : Option String) (years : Option (List Nat))
    (cols : List String) :
    (dataType ≠ "aggTrades" →
      load_parquet fs source market dataType (some sym) detail years = .ok cols →
      ∃ name t,
        find_latest_file ((pGlobbed fs (parquetPre source market dataType detail sym)).map
          (fun f => f.1)) = .ok name ∧
        (name, t) ∈ fs.files ∧ cols = renameOHLCV t) ∧
    (load_parquet fs source market "aggTrades" (some sym) detail years = .ok cols →
      (∀ c ∈ cols, ∃ f ∈ aggYearFiltered years (aggGlobbed fs sym), c ∈ f.2) ∧
      (∀ f ∈ aggYearFiltered years (aggGlobbed fs sym), ∀ c ∈ f.2, c ∈ cols)) := by
  constructor
  · intro hneq h
    unfold load_parquet at h
    dsimp only at h
    by_cases hde : fs.dirExists = true
    · rw [if_pos hde, if_neg hneq] at h
      cases hfl : find_latest_file ((pGlobbed fs
          (parquetPre source market dataType detail sym)).map (fun f => f.1)) with
      | error e => rw [hfl] at h; cases h
      | ok name =>
        rw [hfl] at h
        dsimp only at h
        cases hlk : List.lookup name (pGlobbed fs
            (parquetPre source market dataType detail sym)) with
        | none => rw [hlk] at h; cases h
        | some t =>
          rw [hlk] at h
          refine ⟨name, t, rfl, ?_, (Except.ok.inj h).symm⟩
          have hmem := lookup_pair_mem _ name t hlk
          have : (name, t) ∈ fs.files ∧ _ := List.mem_filter.1 hmem
          exact this.1
    · rw [if_neg hde] at h
      cases h
  · intro h
    unfold load_parquet at h
    dsimp only at h
    by_cases hde : fs.dirExists = true
    · rw [if_pos hde, if_pos rfl] at h
      by_cases hm : (aggGlobbed fs sym).isEmpty = true
      · rw [if_pos hm] at h
        cases h
      · rw [if_neg hm] at h
        by_cases hm2 : (aggYearFiltered years (aggGlobbed fs sym)).isEmpty = true
        · rw [if_pos hm2] at h
          cases h
        · rw [if_neg hm2] at h
          have hcols : cols = aggConcat ((sortPFiles (aggYearFiltered years
              (aggGlobbed fs sym))).map (fun f => f.2)) := (Except.ok.inj h).symm
          constructor
          · intro c hc
            rw [hcols] at hc
            obtain ⟨l, hl, hcl⟩ := (mem_aggConcat c _).1 hc
            obtain ⟨f, hf, rfl⟩ := List.mem_map.1 hl
            exact ⟨f, (List.perm_insertionSort fstLE _).subset hf, hcl⟩
          · intro f hf c hc
            rw [hcols]
            refine (mem_aggConcat c _).2 ⟨f.2, ?_, hc⟩
            exact List.mem_map_of_mem _ ((List.perm_insertionSort fstLE _).symm.subset hf)
    · rw [if_neg hde] at h
      cases h

/-- Witness for C10: a kline file whose `close` and `VOLUME` columns are
renamed while `open_time` and `qty` are kept, and an aggTrades file whose
column names are returned verbatim. -/
theorem c10_witness :
    (∃ name t,
      find_latest_file ((pGlobbed
          ⟨true, [("B_1h_20240101_20250101.parquet", ["open_time", "close", "VOLUME", "qty"])]⟩
          (parquetPre "binance" "future" "kline" (some "1h") "B")).map (fun f => f.1)) =
        .ok name ∧
      (name, t) ∈ [("B_1h_20240101_20250101.parquet",
        ["open_time", "close", "VOLUME", "qty"])] ∧
      ["open_time", "Close", "Volume", "qty"] = renameOHLCV t) ∧
    ((∀ c ∈ ["price", "close"],
        ∃ f ∈ aggYearFiltered (some [2025]) (aggGlobbed
          ⟨true, [("B_aggTrades_2025-01.parquet", ["price", "close"])]⟩ "B"), c ∈ f.2) ∧
      (∀ f ∈ aggYearFiltered (some [2025]) (aggGlobbed
          ⟨true, [("B_aggTrades_2025-01.parquet", ["price", "close"])]⟩ "B"),
        ∀ c ∈ f.2, c ∈ ["price", "close"])) :=
  ⟨(c10_parquet_column_names
      ⟨true, [("B_1h_20240101_20250101.parquet", ["open_time", "close", "VOLUME", "qty"])]⟩
      "binance" "future" "kline" "B" (some "1h") none
      ["open_time", "Close", "Volume", "qty"]).1 (by decide) (by decide),
    (c10_parquet_column_names
      ⟨true, [("B_aggTrades_2025-01.parquet", ["price", "close"])]⟩
      "binance" "future" "aggTrades" "B" none (some [2025])
      ["price", "close"]).2 (by decide)⟩

end KlineSpec
